import Mathlib

/-!
# Verification of the command registry and dispatcher `cmds` (src/cmds.go)

Shallow embedding of the Go package.

* The process-wide variables `CmdList` and `CmdsMap` become the two fields of
  `State`; every operation takes the state explicitly.
* A `*list.Element` is modelled by the position of the element in `CmdList`
  (the list only ever grows at the back, and `Clear` replaces list and map
  together); the nil pointer a failed map lookup yields is `none`.
* A Go panic (nil dereference, index out of range) is the outcome `fault`.
* A `fmt.Fprintf(os.Stderr, ...)` call appends its payload to `Result.out`.
* `HelpCmd`, `UnspCmd` and `MispCmd` are the fixed stateless values that
  `Clear` installs; nothing in the package assigns them anything else.
-/

namespace cmds

/-- The two values a Go `(int, error)` call can end in: a return (with the
error given by its message, `none` for the nil error), or a panic. -/
inductive Outcome where
  | ret (code : Int) (err : Option String)
  | fault
  deriving DecidableEq, Repr

/-- What a call of this package does: the payloads it wrote to `os.Stderr`, in
order, and how it ended. -/
structure Result where
  out : List String
  outcome : Outcome
  deriving DecidableEq, Repr

/-- The interface `Cmd` (cmds.go 19-23). -/
structure Cmd where
  Name : List String
  Help : List String
  Exec : List String → Outcome

/-- The package variables `CmdList` and `CmdsMap` (cmds.go 25-31). -/
structure State where
  CmdList : List Cmd
  CmdsMap : String → Option Nat

/-- Go `Clear` (cmds.go 39-45): a new empty list and a new empty map. -/
def Clear (_ : State) : State :=
  { CmdList := [], CmdsMap := fun _ => none }

/-- The state `init()` (cmds.go 33-35) leaves: `Clear()` run on the zero values. -/
def init : State :=
  Clear { CmdList := [], CmdsMap := fun _ => none }

/-- The assignment `CmdsMap[n] = elem`. -/
def mapSet (m : String → Option Nat) (n : String) (elem : Nat) : String → Option Nat :=
  fun k => if k = n then some elem else m k

/-- Go `Reg` (cmds.go 48-58). -/
def Reg (st : State) (c : Cmd) : State :=
  let names := c.Name
  if names.length ≤ 0 then
    st
  else
    let elem := st.CmdList.length
    { CmdList := st.CmdList ++ [c]
      CmdsMap := names.foldl (fun m n => mapSet m n elem) st.CmdsMap }

/-- The expression `elem.Value.(Cmd)`: `none` when `elem` is nil. -/
def deref (st : State) (elem : Option Nat) : Option Cmd :=
  elem.bind fun i => st.CmdList[i]?

namespace cmdHelp

/-- Go `cmdHelp.Name` (cmds.go 96-98). -/
def Name : List String := ["help", "-h", "--help"]

/-- Go `cmdHelp.Help` (cmds.go 100-108). -/
def Help : List String :=
  [ "Show this help",
    "help|-h|--help\t   Show abstracts for all commands.",
    "help <COMMAND>    Show help detial for <COMMAND>.",
    "help help         Show this help." ]

end cmdHelp

namespace cmdMisp

/-- Go `cmdMisp.Name` (cmds.go 143-145). -/
def Name : List String := [""]

/-- Go `cmdMisp.Help` (cmds.go 147-149). -/
def Help : List String := [""]

/-- Go `cmdMisp.Exec` (cmds.go 151-153). -/
def Exec (_ : List String) : Outcome :=
  .ret 1 (some "Missing parameters, type -h for help")

end cmdMisp

namespace cmdUnsp

/-- Go `cmdUnsp.Name` (cmds.go 158-160). -/
def Name : List String := [""]

/-- Go `cmdUnsp.Help` (cmds.go 162-164). -/
def Help : List String := [""]

/-- Go `cmdUnsp.Exec` (cmds.go 166-168); `args[2]` panics on a short vector. -/
def Exec (args : List String) : Outcome :=
  match args[2]? with
  | none => .fault
  | some a2 =>
    .ret 2 (some ("Unsupported command or help target('" ++ a2 ++ "'), type -h for help"))

end cmdUnsp

/-- The value `Clear` stores in `MispCmd`. -/
def MispCmd : Cmd :=
  { Name := cmdMisp.Name, Help := cmdMisp.Help, Exec := cmdMisp.Exec }

/-- The value `Clear` stores in `UnspCmd`. -/
def UnspCmd : Cmd :=
  { Name := cmdUnsp.Name, Help := cmdUnsp.Help, Exec := cmdUnsp.Exec }

/-- Go `isHelp` (cmds.go 60-68), the loop over `HelpCmd.Name()`. -/
def isHelp (name : String) : Bool :=
  cmdHelp.Name.any fun a => a = name

namespace cmdHelp

/-- The loop of cmds.go 112-117 from the element `elem` on, `out` being what
was written so far. `c.Name()[0]` and `c.Help()[0]` panic on an empty slice. -/
def listAll : List Cmd → List String → Result
  | [], out => { out := out, outcome := .ret 0 none }
  | c :: rest, out =>
    match c.Name[0]? with
    | none => { out := out, outcome := .fault }
    | some n0 =>
      if "" ≠ n0 then
        match c.Help[0]? with
        | none => { out := out, outcome := .fault }
        | some h0 => listAll rest (out ++ [n0 ++ "\t" ++ h0 ++ "\n"])
      else
        listAll rest out

/-- Go `cmdHelp.Exec` (cmds.go 110-138). -/
def Exec (st : State) (args : List String) : Result :=
  if args.length ≤ 2 then
    listAll st.CmdList []
  else
    match args[2]? with
    | none => { out := [], outcome := .fault }
    | some a2 =>
      let elem := st.CmdsMap a2
      let exist := elem.isSome
      match deref st elem with
      | none => { out := [], outcome := .fault }
      | some c0 =>
        let c := if !exist then UnspCmd else c0
        let helps := c.Help
        { out := (helps.drop 1).map fun h => h ++ "\n", outcome := .ret 0 none }

end cmdHelp

/-- Go `Exec` (cmds.go 72-91), the dispatcher. -/
def Exec (st : State) (args : List String) : Result :=
  if args.length ≤ 2 then
    { out := [], outcome := MispCmd.Exec args }
  else
    match args[2]? with
    | none => { out := [], outcome := .fault }
    | some a2 =>
      if isHelp a2 then
        cmdHelp.Exec st args
      else
        let elem := st.CmdsMap a2
        let exist := elem.isSome
        if exist then
          { out := [], outcome := UnspCmd.Exec args }
        else
          match deref st elem with
          | none => { out := [], outcome := .fault }
          | some c => { out := [], outcome := c.Exec args }

/-- One call of the registration interface. -/
inductive Op where
  | reg (c : Cmd)
  | clear

/-- Runs one call on a state. -/
def step (st : State) : Op → State
  | .reg c => Reg st c
  | .clear => Clear st

/-- Runs a sequence of calls, first to last. -/
def run (st : State) (ops : List Op) : State :=
  ops.foldl step st

/-- Two commands that differ at most in their `Exec`. -/
def sameButExec (c d : Cmd) : Prop :=
  c.Name = d.Name ∧ c.Help = d.Help

/-- Two states with the same map whose lists hold, position by position,
commands that differ at most in their `Exec`. -/
def State.sameButExec (s t : State) : Prop :=
  s.CmdsMap = t.CmdsMap ∧ List.Forall₂ cmds.sameButExec s.CmdList t.CmdList

/-- The registry invariant: a key of the map points at a slot of the list, and
the command in that slot declares the key. -/
def Wf (st : State) : Prop :=
  ∀ n i, st.CmdsMap n = some i → ∃ c, st.CmdList[i]? = some c ∧ n ∈ c.Name

/-- The listing the spec describes for general help: for the commands of the
list whose primary name is not empty, in list order, the payload
"<primary name><TAB><abstract>" ended by a newline. -/
def abstractLines (l : List Cmd) : List String :=
  (l.filter fun c => c.Name.headD "" ≠ "").map fun c =>
    c.Name.headD "" ++ "\t" ++ c.Help.headD "" ++ "\n"

namespace cmdHelp

/-- State-passing form of `cmdHelp.Exec` (cmds.go 110-138): the package
variables as the call leaves them, and its result. The body reads `CmdList`
and `CmdsMap` (a Go map read inserts nothing) and assigns neither. -/
def ExecS (st : State) (args : List String) : State × Result :=
  if args.length ≤ 2 then
    (st, listAll st.CmdList [])
  else
    match args[2]? with
    | none => (st, { out := [], outcome := .fault })
    | some a2 =>
      let elem := st.CmdsMap a2
      let exist := elem.isSome
      match deref st elem with
      | none => (st, { out := [], outcome := .fault })
      | some c0 =>
        let c := if !exist then UnspCmd else c0
        let helps := c.Help
        (st, { out := (helps.drop 1).map fun h => h ++ "\n", outcome := .ret 0 none })

end cmdHelp

/-- State-passing form of the dispatcher `Exec` (cmds.go 72-91): the package
variables as the call leaves them, and its result. `eff c args` is the
sequence of `Reg` and `Clear` calls the body of `c.Exec(args)` makes, so a
registered command that is run may change the registry. -/
def ExecS (eff : Cmd → List String → List Op) (st : State) (args : List String) :
    State × Result :=
  if args.length ≤ 2 then
    (st, { out := [], outcome := MispCmd.Exec args })
  else
    match args[2]? with
    | none => (st, { out := [], outcome := .fault })
    | some a2 =>
      if isHelp a2 then
        cmdHelp.ExecS st args
      else
        let elem := st.CmdsMap a2
        let exist := elem.isSome
        if exist then
          (st, { out := [], outcome := UnspCmd.Exec args })
        else
          match deref st elem with
          | none => (st, { out := [], outcome := .fault })
          | some c => (run st (eff c args), { out := [], outcome := c.Exec args })

/-! ## Sample commands -/

/-- A command with the names "greet" and "hi" that always succeeds. -/
def greet : Cmd :=
  { Name := ["greet", "hi"]
    Help := ["Greets you", "Usage: greet <name>"]
    Exec := fun _ => .ret 0 none }

/-- A command with the names "foo" and "bar" whose result depends only on the
arguments after the command name. -/
def fooBar : Cmd :=
  { Name := ["foo", "bar"]
    Help := ["Foo", "Usage: foo"]
    Exec := fun args => .ret (args.drop 3).length none }

/-- A command registered under the help alias "help". -/
def helpThief : Cmd :=
  { Name := ["help"]
    Help := ["Not the help", "stolen"]
    Exec := fun _ => .ret 7 (some "thief ran") }

/-- A command that declares no name. -/
def nameless : Cmd :=
  { Name := []
    Help := ["nothing"]
    Exec := fun _ => .ret 0 none }

/-- A second command that declares the name "greet". -/
def greet2 : Cmd :=
  { Name := ["greet"]
    Help := ["Greets again", "Usage: greet"]
    Exec := fun _ => .ret 3 none }

/-- A command whose primary name is the empty string. -/
def blank : Cmd :=
  { Name := ["", "b"]
    Help := ["Blank"]
    Exec := fun _ => .ret 0 none }

/-! ## Helper lemmas -/

theorem mapSet_foldl (names : List String) (elem : Nat) (m : String → Option Nat)
    (k : String) :
    (names.foldl (fun m n => mapSet m n elem) m) k = if k ∈ names then some elem else m k := by
  induction names generalizing m with
  | nil => simp
  | cons n rest ih =>
    rw [List.foldl_cons, ih]
    by_cases hk : k ∈ rest
    · simp [hk]
    · by_cases hn : k = n
      · simp [hk, hn, mapSet]
      · simp [hk, hn, mapSet]

theorem Reg_of_names {st : State} {c : Cmd} (h : c.Name ≠ []) :
    Reg st c =
      { CmdList := st.CmdList ++ [c]
        CmdsMap := c.Name.foldl (fun m n => mapSet m n st.CmdList.length) st.CmdsMap } := by
  have hlen : ¬ c.Name.length ≤ 0 := by
    have := List.length_pos.mpr h
    omega
  simp only [Reg, hlen, if_false]

theorem Reg_CmdsMap {st : State} {c : Cmd} (h : c.Name ≠ []) (k : String) :
    (Reg st c).CmdsMap k = if k ∈ c.Name then some st.CmdList.length else st.CmdsMap k := by
  rw [Reg_of_names h]
  exact mapSet_foldl c.Name st.CmdList.length st.CmdsMap k

theorem Reg_CmdList {st : State} {c : Cmd} (h : c.Name ≠ []) :
    (Reg st c).CmdList = st.CmdList ++ [c] := by
  rw [Reg_of_names h]

theorem Reg_no_names {st : State} {c : Cmd} (h : c.Name = []) : Reg st c = st := by
  simp [Reg, h]

theorem Wf_Clear (st : State) : Wf (Clear st) := by
  intro n i h
  simp [Clear] at h

theorem Wf_Reg {st : State} (hst : Wf st) (c : Cmd) : Wf (Reg st c) := by
  by_cases hc : c.Name = []
  · rw [Reg_no_names hc]
    exact hst
  · intro n i h
    rw [Reg_CmdsMap hc] at h
    rw [Reg_CmdList hc]
    by_cases hn : n ∈ c.Name
    · rw [if_pos hn] at h
      have hi : i = st.CmdList.length := by
        injection h with h'
        exact h'.symm
      subst hi
      exact ⟨c, by simp, hn⟩
    · rw [if_neg hn] at h
      obtain ⟨d, hd, hnd⟩ := hst n i h
      refine ⟨d, ?_, hnd⟩
      have hlt : i < st.CmdList.length := by
        by_contra hge
        rw [List.getElem?_eq_none (by omega)] at hd
        cases hd
      rw [List.getElem?_append_left hlt]
      exact hd

theorem Wf_step {st : State} (hst : Wf st) (op : Op) : Wf (step st op) := by
  cases op with
  | reg c => exact Wf_Reg hst c
  | clear => exact Wf_Clear st

theorem Wf_run {st : State} (hst : Wf st) (ops : List Op) : Wf (run st ops) := by
  induction ops generalizing st with
  | nil => exact hst
  | cons op rest ih => exact ih (Wf_step hst op)

theorem Wf_init : Wf init := Wf_Clear _

theorem getElem?_Help_of_sameButExec {l l' : List Cmd}
    (h : List.Forall₂ sameButExec l l') (i : Nat) :
    (l[i]?).map Cmd.Help = (l'[i]?).map Cmd.Help := by
  induction h generalizing i with
  | nil => simp
  | cons hcd _ ih =>
    cases i with
    | zero => simpa using hcd.2
    | succ j => simpa using ih j

theorem listAll_of_sameButExec {l l' : List Cmd}
    (h : List.Forall₂ sameButExec l l') (out : List String) :
    cmdHelp.listAll l out = cmdHelp.listAll l' out := by
  induction h generalizing out with
  | nil => rfl
  | cons hcd _ ih =>
    simp only [cmdHelp.listAll, hcd.1, hcd.2, ih]

theorem cmdHelp_Exec_of_sameButExec {s t : State} (h : s.sameButExec t)
    (args : List String) : cmdHelp.Exec s args = cmdHelp.Exec t args := by
  obtain ⟨hmap, hlist⟩ := h
  unfold cmdHelp.Exec
  by_cases hlen : args.length ≤ 2
  · simp only [hlen, if_true]
    exact listAll_of_sameButExec hlist []
  · simp only [hlen, if_false]
    cases args[2]? with
    | none => rfl
    | some a2 =>
      simp only [← hmap]
      cases hk : s.CmdsMap a2 with
      | none => simp [deref]
      | some i =>
        have hi := getElem?_Help_of_sameButExec hlist i
        simp only [deref, Option.some_bind]
        cases hs : s.CmdList[i]? with
        | none =>
          cases ht : t.CmdList[i]? with
          | none => rfl
          | some d => simp [hs, ht] at hi
        | some c =>
          cases ht : t.CmdList[i]? with
          | none => simp [hs, ht] at hi
          | some d =>
            have hcd : c.Help = d.Help := by simpa [hs, ht] using hi
            simp [hcd]

theorem isHelp_of_alias {n : String} (hn : n = "help" ∨ n = "-h" ∨ n = "--help") :
    isHelp n = true := by
  rcases hn with rfl | rfl | rfl <;> decide

theorem Exec_of_isHelp (st : State) {args : List String} {n : String}
    (hlen : 3 ≤ args.length) (h2 : args[2]? = some n) (hn : isHelp n = true) :
    Exec st args = cmdHelp.Exec st args := by
  have hgt : ¬ args.length ≤ 2 := by omega
  simp [Exec, hgt, h2, hn]

/-! ## The dispatcher on short argument vectors -/

/-- C1: whatever the registry holds, `Exec` on an argument vector of fewer
than three elements writes nothing and returns exit code 1 with the error
"Missing parameters, type -h for help". -/
theorem Exec_missing_parameters (st : State) (args : List String) (h : args.length < 3) :
    Exec st args =
      { out := [], outcome := .ret 1 (some "Missing parameters, type -h for help") } := by
  have hle : args.length ≤ 2 := by omega
  simp [Exec, hle, MispCmd, cmdMisp.Exec]

theorem Exec_missing_parameters_witness :
    ["prog", "sub"].length < 3 ∧
      Exec (Reg init greet) ["prog", "sub"] =
        { out := [], outcome := .ret 1 (some "Missing parameters, type -h for help") } :=
  ⟨by decide, Exec_missing_parameters (Reg init greet) ["prog", "sub"] (by decide)⟩

/-! ## The dispatcher on the help aliases -/

/-- C4: when the element at index 2 is "help", "-h" or "--help", `Exec` does
what `HelpCmd.Exec` does on the same arguments, and its result is the same in
every state that differs only in the `Exec` of the registered commands: no
registered `Exec` is run, whatever is registered under the alias. -/
theorem Exec_help_alias (st : State) (args : List String) (n : String)
    (hlen : 3 ≤ args.length) (h2 : args[2]? = some n)
    (hn : n = "help" ∨ n = "-h" ∨ n = "--help") :
    Exec st args = cmdHelp.Exec st args ∧
      ∀ st', st.sameButExec st' → Exec st' args = Exec st args := by
  have hh := isHelp_of_alias hn
  refine ⟨Exec_of_isHelp st hlen h2 hh, ?_⟩
  intro st' hst
  rw [Exec_of_isHelp st hlen h2 hh, Exec_of_isHelp st' hlen h2 hh]
  exact (cmdHelp_Exec_of_sameButExec hst args).symm

theorem Exec_help_alias_witness :
    3 ≤ ["prog", "sub", "help", "x"].length ∧
      ["prog", "sub", "help", "x"][2]? = some "help" ∧
      (Reg init helpThief).CmdsMap "help" = some 0 ∧
      (Exec (Reg init helpThief) ["prog", "sub", "help", "x"] =
          cmdHelp.Exec (Reg init helpThief) ["prog", "sub", "help", "x"] ∧
        ∀ st', (Reg init helpThief).sameButExec st' →
          Exec st' ["prog", "sub", "help", "x"] =
            Exec (Reg init helpThief) ["prog", "sub", "help", "x"]) :=
  ⟨by decide, rfl, by decide,
    Exec_help_alias (Reg init helpThief) ["prog", "sub", "help", "x"] "help" (by decide) rfl
      (Or.inl rfl)⟩

/-! ## The dispatcher on other names: what the code does -/

/-- C2 (the code at the failing input): with "greet" registered, a key of the
map whose slot holds `greet`, `Exec` on ["prog", "sub", "greet"] returns the
result of `UnspCmd.Exec`, exit code 2 and the "Unsupported command" error,
while `greet.Exec` on the same arguments returns exit code 0 and no error. -/
theorem Exec_registered_name_returns_unsupported :
    isHelp "greet" = false ∧
      (Reg init greet).CmdsMap "greet" = some 0 ∧
      (Reg init greet).CmdList[0]? = some greet ∧
      greet.Exec ["prog", "sub", "greet"] = .ret 0 none ∧
      Exec (Reg init greet) ["prog", "sub", "greet"] =
        { out := []
          outcome :=
            .ret 2 (some "Unsupported command or help target('greet'), type -h for help") } :=
  ⟨by decide, by decide, rfl, rfl, by decide⟩

/-- C3 (the code at the failing input): in the initial state "zzz" is neither
a help alias nor a key of the map, and `Exec` on ["prog", "sub", "zzz"] ends
in a fault (the dereference of the nil lookup result) instead of returning
exit code 2. -/
theorem Exec_unknown_name_faults :
    isHelp "zzz" = false ∧ init.CmdsMap "zzz" = none ∧
      Exec init ["prog", "sub", "zzz"] = { out := [], outcome := .fault } :=
  ⟨by decide, rfl, by decide⟩

/-- C5 (the code at the failing inputs): in the state reached by registering
`greet`, whose `Exec` never faults, `Exec` faults on an unregistered name and
on a help request, and in the initial state it faults on "help". -/
theorem Exec_faults_on_reachable_state :
    (∀ args, greet.Exec args ≠ .fault) ∧
      (Exec (run init [.reg greet]) ["prog", "sub", "nope"]).outcome = .fault ∧
      (Exec (run init [.reg greet]) ["prog", "sub", "help", "greet"]).outcome = .fault ∧
      (Exec (run init []) ["prog", "sub", "help"]).outcome = .fault := by
  refine ⟨?_, by decide, by decide, by decide⟩
  intro args h
  cases h

/-- C10 (the code at the failing input): with `fooBar` registered under "foo"
and "bar", and its `Exec` giving the same result under either name, `Exec` on
["p0", "p1", "foo", "x"] and on ["p0", "p1", "bar", "x"] return exit code 2
with two different errors, one naming 'foo' and one naming 'bar'. -/
theorem Exec_aliases_differ :
    fooBar.Exec ["p0", "p1", "foo", "x"] = fooBar.Exec ["p0", "p1", "bar", "x"] ∧
      Exec (Reg init fooBar) ["p0", "p1", "foo", "x"] =
        { out := []
          outcome :=
            .ret 2 (some "Unsupported command or help target('foo'), type -h for help") } ∧
      Exec (Reg init fooBar) ["p0", "p1", "bar", "x"] =
        { out := []
          outcome :=
            .ret 2 (some "Unsupported command or help target('bar'), type -h for help") } ∧
      Exec (Reg init fooBar) ["p0", "p1", "foo", "x"] ≠
        Exec (Reg init fooBar) ["p0", "p1", "bar", "x"] :=
  ⟨rfl, by decide, by decide, by decide⟩

/-! ## Registration -/

/-- C6: for a command with at least one name, `Reg` appends the command once
at the back of the list, and every name of the command then maps to that new
slot, which holds the command. -/
theorem Reg_appends_and_maps (st : State) (c : Cmd) (h : c.Name ≠ []) :
    (Reg st c).CmdList = st.CmdList ++ [c] ∧
      (Reg st c).CmdList[st.CmdList.length]? = some c ∧
      ∀ n ∈ c.Name, (Reg st c).CmdsMap n = some st.CmdList.length := by
  refine ⟨Reg_CmdList h, ?_, ?_⟩
  · rw [Reg_CmdList h]
    simp
  · intro n hn
    rw [Reg_CmdsMap h, if_pos hn]

theorem Reg_appends_and_maps_witness :
    greet.Name ≠ [] ∧
      ((Reg init greet).CmdList = init.CmdList ++ [greet] ∧
        (Reg init greet).CmdList[init.CmdList.length]? = some greet ∧
        ∀ n ∈ greet.Name, (Reg init greet).CmdsMap n = some init.CmdList.length) :=
  ⟨by decide, Reg_appends_and_maps init greet (by decide)⟩

/-- C7: for a command whose `Name()` is empty, `Reg` leaves the state (list
and map) as it was; `Reg` has no error result. -/
theorem Reg_empty_name_noop (st : State) (c : Cmd) (h : c.Name = []) :
    Reg st c = st ∧ (Reg st c).CmdList = st.CmdList ∧ (Reg st c).CmdsMap = st.CmdsMap := by
  rw [Reg_no_names h]
  exact ⟨rfl, rfl, rfl⟩

theorem Reg_empty_name_noop_witness :
    nameless.Name = [] ∧
      (Reg (Reg init greet) nameless = Reg init greet ∧
        (Reg (Reg init greet) nameless).CmdList = (Reg init greet).CmdList ∧
        (Reg (Reg init greet) nameless).CmdsMap = (Reg init greet).CmdsMap) :=
  ⟨rfl, Reg_empty_name_noop (Reg init greet) nameless rfl⟩

/-- C8: in every state reached from the initial (cleared) state by a sequence
of `Reg` and `Clear` calls, each key of the map points at a slot of the current
list, and the command in that slot has the key among its names. -/
theorem reachable_map_points_into_list (ops : List Op) (n : String) (i : Nat)
    (h : (run init ops).CmdsMap n = some i) :
    ∃ c, (run init ops).CmdList[i]? = some c ∧ n ∈ c.Name :=
  Wf_run Wf_init ops n i h

theorem reachable_map_points_into_list_witness :
    (run init [.reg fooBar, .clear, .reg nameless, .reg greet]).CmdsMap "hi" = some 0 ∧
      ∃ c, (run init [.reg fooBar, .clear, .reg nameless, .reg greet]).CmdList[0]? = some c ∧
        "hi" ∈ c.Name :=
  ⟨by decide,
    reachable_map_points_into_list [.reg fooBar, .clear, .reg nameless, .reg greet] "hi" 0
      (by decide)⟩

/-- C9: after `Reg` of a command with at least two names, any two of its names
map to one and the same slot of the list; that slot holds the command, and the
list grew by that one slot only. -/
theorem Reg_aliases_share_slot (st : State) (c : Cmd) (h : 2 ≤ c.Name.length)
    (n m : String) (hn : n ∈ c.Name) (hm : m ∈ c.Name) :
    (Reg st c).CmdsMap n = (Reg st c).CmdsMap m ∧
      (∃ i, (Reg st c).CmdsMap n = some i ∧ (Reg st c).CmdsMap m = some i ∧
        (Reg st c).CmdList[i]? = some c) ∧
      (Reg st c).CmdList.length = st.CmdList.length + 1 := by
  have hc : c.Name ≠ [] := by
    intro h0
    rw [h0] at h
    simp at h
  have h1 : (Reg st c).CmdsMap n = some st.CmdList.length := by
    rw [Reg_CmdsMap hc, if_pos hn]
  have h2 : (Reg st c).CmdsMap m = some st.CmdList.length := by
    rw [Reg_CmdsMap hc, if_pos hm]
  refine ⟨h1.trans h2.symm, ⟨st.CmdList.length, h1, h2, ?_⟩, ?_⟩
  · rw [Reg_CmdList hc]
    simp
  · rw [Reg_CmdList hc]
    simp

theorem Reg_aliases_share_slot_witness :
    2 ≤ fooBar.Name.length ∧ "foo" ∈ fooBar.Name ∧ "bar" ∈ fooBar.Name ∧
      ((Reg (Reg init greet) fooBar).CmdsMap "foo" = (Reg (Reg init greet) fooBar).CmdsMap "bar" ∧
        (∃ i, (Reg (Reg init greet) fooBar).CmdsMap "foo" = some i ∧
          (Reg (Reg init greet) fooBar).CmdsMap "bar" = some i ∧
          (Reg (Reg init greet) fooBar).CmdList[i]? = some fooBar) ∧
        (Reg (Reg init greet) fooBar).CmdList.length = (Reg init greet).CmdList.length + 1) :=
  ⟨by decide, by decide, by decide,
    Reg_aliases_share_slot (Reg init greet) fooBar (by decide) "foo" "bar" (by decide)
      (by decide)⟩

theorem Reg_CmdsMap_of_not_mem (st : State) (c : Cmd) {m : String} (hm : m ∉ c.Name) :
    (Reg st c).CmdsMap m = st.CmdsMap m := by
  by_cases hc : c.Name = []
  · rw [Reg_no_names hc]
  · rw [Reg_CmdsMap hc, if_neg hm]

theorem Reg_CmdList_prefix (st : State) (c : Cmd) : st.CmdList <+: (Reg st c).CmdList := by
  by_cases hc : c.Name = []
  · rw [Reg_no_names hc]
  · rw [Reg_CmdList hc]
    exact List.prefix_append _ _

theorem Reg_getElem?_of_lt (st : State) (c : Cmd) {i : Nat} (hi : i < st.CmdList.length) :
    (Reg st c).CmdList[i]? = st.CmdList[i]? := by
  by_cases hc : c.Name = []
  · rw [Reg_no_names hc]
  · rw [Reg_CmdList hc, List.getElem?_append_left hi]

theorem getElem?_append_pair_fst (l : List Cmd) (a b : Cmd) :
    (l ++ [a, b])[l.length]? = some a := by
  rw [List.getElem?_append_right (Nat.le_refl _)]
  simp

theorem getElem?_append_pair_snd (l : List Cmd) (a b : Cmd) :
    (l ++ [a, b])[l.length + 1]? = some b := by
  rw [List.getElem?_append_right (Nat.le_add_right _ _)]
  simp

/-! ## Registration: overwriting, repetition, clearing, frame -/

/-- C11: when `c1` and `c2` both declare the name `n`, after `Reg(c1)` and
then `Reg(c2)` the name `n` maps to the slot of `c2` (the last registration),
where it mapped to the slot of `c1` in between; the list is the old list
followed by `c1` and then `c2`, so the slot of `c1` is still there, before the
slot of `c2`. -/
theorem Reg_last_registration_wins (st : State) (c1 c2 : Cmd) (n : String)
    (h1 : n ∈ c1.Name) (h2 : n ∈ c2.Name) :
    (Reg st c1).CmdsMap n = some st.CmdList.length ∧
      (Reg (Reg st c1) c2).CmdsMap n = some (st.CmdList.length + 1) ∧
      (Reg (Reg st c1) c2).CmdList = st.CmdList ++ [c1, c2] ∧
      (Reg (Reg st c1) c2).CmdList[st.CmdList.length]? = some c1 ∧
      (Reg (Reg st c1) c2).CmdList[st.CmdList.length + 1]? = some c2 := by
  have hc1 : c1.Name ≠ [] := List.ne_nil_of_mem h1
  have hc2 : c2.Name ≠ [] := List.ne_nil_of_mem h2
  have hl : (Reg (Reg st c1) c2).CmdList = st.CmdList ++ [c1, c2] := by
    rw [Reg_CmdList hc2, Reg_CmdList hc1]
    simp
  refine ⟨?_, ?_, hl, ?_, ?_⟩
  · rw [Reg_CmdsMap hc1, if_pos h1]
  · rw [Reg_CmdsMap hc2, if_pos h2, Reg_CmdList hc1]
    simp
  · rw [hl]
    exact getElem?_append_pair_fst _ _ _
  · rw [hl]
    exact getElem?_append_pair_snd _ _ _

theorem Reg_last_registration_wins_witness :
    "greet" ∈ greet.Name ∧ "greet" ∈ greet2.Name ∧
      ((Reg init greet).CmdsMap "greet" = some init.CmdList.length ∧
        (Reg (Reg init greet) greet2).CmdsMap "greet" = some (init.CmdList.length + 1) ∧
        (Reg (Reg init greet) greet2).CmdList = init.CmdList ++ [greet, greet2] ∧
        (Reg (Reg init greet) greet2).CmdList[init.CmdList.length]? = some greet ∧
        (Reg (Reg init greet) greet2).CmdList[init.CmdList.length + 1]? = some greet2) :=
  ⟨by decide, by decide,
    Reg_last_registration_wins init greet greet2 "greet" (by decide) (by decide)⟩

/-- C12: for a command `c` with at least one name, after `Reg(c)` twice the
list is the old list followed by `c` twice; every name of `c` maps to the
later of the two slots and resolves to `c`; a name is a key of the map after
the second call exactly when it is one after the first; and every key whose
slot exists after the first call resolves to the same command after the
second. (A map value is a position here; a Go element pointer always denotes
an existing element.) -/
theorem Reg_twice (st : State) (c : Cmd) (h : c.Name ≠ []) :
    (Reg (Reg st c) c).CmdList = st.CmdList ++ [c, c] ∧
      (∀ n ∈ c.Name,
        (Reg (Reg st c) c).CmdsMap n = some (st.CmdList.length + 1) ∧
          deref (Reg (Reg st c) c) ((Reg (Reg st c) c).CmdsMap n) = some c) ∧
      (∀ k, ((Reg (Reg st c) c).CmdsMap k).isSome = ((Reg st c).CmdsMap k).isSome) ∧
      (∀ k i, (Reg st c).CmdsMap k = some i → i < (Reg st c).CmdList.length →
        deref (Reg (Reg st c) c) ((Reg (Reg st c) c).CmdsMap k) =
          deref (Reg st c) ((Reg st c).CmdsMap k)) := by
  have hl1 : (Reg st c).CmdList = st.CmdList ++ [c] := Reg_CmdList h
  have hl2 : (Reg (Reg st c) c).CmdList = st.CmdList ++ [c, c] := by
    rw [Reg_CmdList h, hl1]
    simp
  have hlen1 : (Reg st c).CmdList.length = st.CmdList.length + 1 := by
    rw [hl1]
    simp
  have hm2 : ∀ n ∈ c.Name, (Reg (Reg st c) c).CmdsMap n = some (st.CmdList.length + 1) := by
    intro n hn
    rw [Reg_CmdsMap h, if_pos hn, hlen1]
  have hd2 : ∀ n ∈ c.Name,
      deref (Reg (Reg st c) c) ((Reg (Reg st c) c).CmdsMap n) = some c := by
    intro n hn
    rw [hm2 n hn]
    simp only [deref, Option.some_bind, hl2]
    exact getElem?_append_pair_snd _ _ _
  refine ⟨hl2, fun n hn => ⟨hm2 n hn, hd2 n hn⟩, ?_, ?_⟩
  · intro k
    by_cases hk : k ∈ c.Name
    · rw [hm2 k hk, Reg_CmdsMap h, if_pos hk]
      rfl
    · rw [Reg_CmdsMap_of_not_mem (Reg st c) c hk]
  · intro k i hki hi
    by_cases hk : k ∈ c.Name
    · rw [hd2 k hk, Reg_CmdsMap h, if_pos hk]
      simp [deref, hl1]
    · rw [Reg_CmdsMap_of_not_mem (Reg st c) c hk, hki]
      simp only [deref, Option.some_bind]
      exact Reg_getElem?_of_lt (Reg st c) c hi

theorem Reg_twice_witness :
    greet.Name ≠ [] ∧
      ((Reg (Reg init greet) greet).CmdList = init.CmdList ++ [greet, greet] ∧
        (∀ n ∈ greet.Name,
          (Reg (Reg init greet) greet).CmdsMap n = some (init.CmdList.length + 1) ∧
            deref (Reg (Reg init greet) greet) ((Reg (Reg init greet) greet).CmdsMap n) =
              some greet) ∧
        (∀ k, ((Reg (Reg init greet) greet).CmdsMap k).isSome =
          ((Reg init greet).CmdsMap k).isSome) ∧
        (∀ k i, (Reg init greet).CmdsMap k = some i → i < (Reg init greet).CmdList.length →
          deref (Reg (Reg init greet) greet) ((Reg (Reg init greet) greet).CmdsMap k) =
            deref (Reg init greet) ((Reg init greet).CmdsMap k))) :=
  ⟨by decide, Reg_twice init greet (by decide)⟩

/-- C13: after `Clear` the list is empty and the map has no key, so every
name, a formerly registered one included, is not found and resolves to no
command. -/
theorem Clear_empties (st : State) :
    (Clear st).CmdList = [] ∧
      ∀ n, (Clear st).CmdsMap n = none ∧ deref (Clear st) ((Clear st).CmdsMap n) = none := by
  refine ⟨rfl, fun n => ⟨rfl, rfl⟩⟩

/-- C20: for a name `m` that `c` does not declare, `Reg(c)` leaves the map
entry of `m` as it was (a key afterwards exactly when it was one before, with
the same slot), the old list is an initial segment of the new one, and every
slot of the old list holds the same command afterwards, so `m` resolves to the
same command. -/
theorem Reg_frame (st : State) (c : Cmd) (m : String) (hm : m ∉ c.Name) :
    (Reg st c).CmdsMap m = st.CmdsMap m ∧
      (((Reg st c).CmdsMap m).isSome ↔ (st.CmdsMap m).isSome) ∧
      st.CmdList <+: (Reg st c).CmdList ∧
      (∀ i, i < st.CmdList.length → (Reg st c).CmdList[i]? = st.CmdList[i]?) ∧
      (∀ i, st.CmdsMap m = some i → i < st.CmdList.length →
        deref (Reg st c) ((Reg st c).CmdsMap m) = deref st (st.CmdsMap m)) := by
  have hmap := Reg_CmdsMap_of_not_mem st c hm
  refine ⟨hmap, by rw [hmap], Reg_CmdList_prefix st c,
    fun i hi => Reg_getElem?_of_lt st c hi, ?_⟩
  intro i hmi hi
  rw [hmap, hmi]
  simp only [deref, Option.some_bind]
  exact Reg_getElem?_of_lt st c hi

theorem Reg_frame_witness :
    "greet" ∉ fooBar.Name ∧
      ((Reg (Reg init greet) fooBar).CmdsMap "greet" = (Reg init greet).CmdsMap "greet" ∧
        (((Reg (Reg init greet) fooBar).CmdsMap "greet").isSome ↔
          ((Reg init greet).CmdsMap "greet").isSome) ∧
        (Reg init greet).CmdList <+: (Reg (Reg init greet) fooBar).CmdList ∧
        (∀ i, i < (Reg init greet).CmdList.length →
          (Reg (Reg init greet) fooBar).CmdList[i]? = (Reg init greet).CmdList[i]?) ∧
        (∀ i, (Reg init greet).CmdsMap "greet" = some i → i < (Reg init greet).CmdList.length →
          deref (Reg (Reg init greet) fooBar) ((Reg (Reg init greet) fooBar).CmdsMap "greet") =
            deref (Reg init greet) ((Reg init greet).CmdsMap "greet"))) :=
  ⟨by decide, Reg_frame (Reg init greet) fooBar "greet" (by decide)⟩

/-! ## The help command and the dispatcher: what the code does -/

theorem isHelp_eq_false {n : String} (hn : n ≠ "help" ∧ n ≠ "-h" ∧ n ≠ "--help") :
    isHelp n = false := by
  obtain ⟨h1, h2, h3⟩ := hn
  simp [isHelp, cmdHelp.Name, Ne.symm h1, Ne.symm h2, Ne.symm h3]

theorem Exec_of_key (st : State) {args : List String} {n : String}
    (hlen : 3 ≤ args.length) (h2 : args[2]? = some n) (hn : isHelp n = false)
    (hk : (st.CmdsMap n).isSome = true) :
    Exec st args =
      { out := []
        outcome :=
          .ret 2 (some ("Unsupported command or help target('" ++ n ++ "'), type -h for help")) } := by
  have hgt : ¬ args.length ≤ 2 := by omega
  simp [Exec, hgt, h2, hn, hk, UnspCmd, cmdUnsp.Exec]

theorem Exec_of_not_key (st : State) {args : List String} {n : String}
    (hlen : 3 ≤ args.length) (h2 : args[2]? = some n) (hn : isHelp n = false)
    (hk : st.CmdsMap n = none) :
    Exec st args = { out := [], outcome := .fault } := by
  have hgt : ¬ args.length ≤ 2 := by omega
  simp [Exec, hgt, h2, hn, hk, deref]

theorem cmdHelp_ExecS_eq (st : State) (args : List String) :
    cmdHelp.ExecS st args = (st, cmdHelp.Exec st args) := by
  unfold cmdHelp.ExecS cmdHelp.Exec
  by_cases hlen : args.length ≤ 2
  · simp only [hlen, if_true]
  · simp only [hlen, if_false]
    cases args[2]? with
    | none => rfl
    | some a2 =>
      simp only []
      cases deref st (st.CmdsMap a2) with
      | none => rfl
      | some c0 => rfl

theorem ExecS_eq (eff : Cmd → List String → List Op) (st : State) (args : List String) :
    ExecS eff st args = (st, Exec st args) := by
  unfold ExecS Exec
  by_cases hlen : args.length ≤ 2
  · simp only [hlen, if_true]
  · simp only [hlen, if_false]
    cases args[2]? with
    | none => rfl
    | some a2 =>
      simp only []
      by_cases hh : isHelp a2 = true
      · simp only [hh, if_true]
        exact cmdHelp_ExecS_eq st args
      · simp only [hh, if_false]
        cases hk : st.CmdsMap a2 with
        | none => simp [deref]
        | some i => simp

theorem listAll_eq (l : List Cmd) (out : List String)
    (h : ∀ c ∈ l, c.Name ≠ [] ∧ c.Help ≠ []) :
    cmdHelp.listAll l out = { out := out ++ abstractLines l, outcome := .ret 0 none } := by
  induction l generalizing out with
  | nil => simp [cmdHelp.listAll, abstractLines]
  | cons c rest ih =>
    have hrest : ∀ d ∈ rest, d.Name ≠ [] ∧ d.Help ≠ [] :=
      fun d hd => h d (List.mem_cons_of_mem c hd)
    obtain ⟨hn, hh⟩ := h c (List.mem_cons_self c rest)
    obtain ⟨n0, ns, hns⟩ := List.exists_cons_of_ne_nil hn
    obtain ⟨h0, hs, hhs⟩ := List.exists_cons_of_ne_nil hh
    have ihr := fun o => ih o hrest
    unfold abstractLines at ihr ⊢
    by_cases hne : n0 = ""
    · simp [cmdHelp.listAll, hns, hhs, hne, ihr]
    · have hne' : ¬ "" = n0 := fun e => hne e.symm
      simp [cmdHelp.listAll, hns, hhs, hne, hne', ihr]

theorem run_regs_CmdList (st : State) (cs : List Cmd) :
    (run st (cs.map Op.reg)).CmdList = st.CmdList ++ cs.filter fun c => c.Name ≠ [] := by
  induction cs generalizing st with
  | nil => simp [run]
  | cons c rest ih =>
    have hrun : run st ((c :: rest).map Op.reg) = run (Reg st c) (rest.map Op.reg) := rfl
    rw [hrun, ih]
    by_cases hc : c.Name = []
    · simp [Reg_no_names hc, hc]
    · simp [Reg_CmdList hc, hc]

/-- C14 (the code at the failing inputs): `Exec` on ["prog", "sub", h] for
each help alias `h` ends in a fault in the initial state, instead of returning
exit code 0 with nothing written; with `greet` registered it faults as well,
where the listing would be the line "greet<TAB>Greets you". -/
theorem Exec_help_alone_faults :
    Exec init ["prog", "sub", "help"] = { out := [], outcome := .fault } ∧
      Exec init ["prog", "sub", "-h"] = { out := [], outcome := .fault } ∧
      Exec init ["prog", "sub", "--help"] = { out := [], outcome := .fault } ∧
      Exec (Reg init greet) ["prog", "sub", "help"] = { out := [], outcome := .fault } ∧
      abstractLines (Reg init greet).CmdList = ["greet\tGreets you\n"] :=
  ⟨by decide, by decide, by decide, by decide, by decide⟩

/-- C15 (the code at the failing inputs): with `greet` registered, `Exec` on
["prog", "sub", "help", "greet"] ends in a fault instead of writing
"Usage: greet <name>"; with `helpThief` registered too, it writes the help of
the command found under "help", the element at index 2, not that of "greet". -/
theorem Exec_help_target_not_read :
    "greet" ∈ greet.Name ∧ isHelp "greet" = false ∧
      (greet.Help.drop 1).map (fun h => h ++ "\n") = ["Usage: greet <name>\n"] ∧
      Exec (Reg init greet) ["prog", "sub", "help", "greet"] =
        { out := [], outcome := .fault } ∧
      Exec (Reg (Reg init greet) helpThief) ["prog", "sub", "help", "greet"] =
        { out := ["stolen\n"], outcome := .ret 0 none } :=
  ⟨by decide, by decide, by decide, by decide, by decide⟩

/-- C16 (the code at the failing inputs): in the initial state, where no name
is a key of the map, `HelpCmd.Exec` on ["prog", "sub", "nope"] and on
["prog", "sub", "help", "nope"] ends in a fault (it reads `elem.Value` of the
nil lookup result before it tests `exist`) instead of returning exit code 0
with the empty tail of the help of `UnspCmd`. -/
theorem cmdHelp_Exec_absent_target_faults :
    init.CmdsMap "nope" = none ∧ init.CmdsMap "help" = none ∧
      UnspCmd.Help.drop 1 = [] ∧
      cmdHelp.Exec init ["prog", "sub", "nope"] = { out := [], outcome := .fault } ∧
      cmdHelp.Exec init ["prog", "sub", "help", "nope"] = { out := [], outcome := .fault } :=
  ⟨rfl, rfl, by decide, by decide, by decide⟩

/-- C17: in a state reached from the initial state by `Reg` calls, if every
command of the list has a non-empty `Help()`, then `HelpCmd.Exec` called
directly on an argument vector of at most two elements returns exit code 0
with no error and writes, for the commands of the list whose primary name is
not empty, front to back, the payload "<Name()[0]><TAB><Help()[0]>" and a
newline. The list holds the registered commands that have a name, in
registration order, whatever the map says, and `Name()[0]` and `Help()[0]`
exist for each of them. -/
theorem cmdHelp_Exec_lists_all (cs : List Cmd) (args : List String)
    (hhelp : ∀ c ∈ (run init (cs.map Op.reg)).CmdList, c.Help ≠ [])
    (hlen : args.length ≤ 2) :
    cmdHelp.Exec (run init (cs.map Op.reg)) args =
        { out := abstractLines (run init (cs.map Op.reg)).CmdList, outcome := .ret 0 none } ∧
      (run init (cs.map Op.reg)).CmdList = cs.filter (fun c => c.Name ≠ []) ∧
      ∀ c ∈ (run init (cs.map Op.reg)).CmdList,
        c.Name[0]? = some (c.Name.headD "") ∧ c.Help[0]? = some (c.Help.headD "") := by
  have hl : (run init (cs.map Op.reg)).CmdList = cs.filter (fun c => c.Name ≠ []) := by
    rw [run_regs_CmdList]
    rfl
  have hname : ∀ c ∈ (run init (cs.map Op.reg)).CmdList, c.Name ≠ [] := by
    intro c hc
    rw [hl] at hc
    simpa using (List.mem_filter.mp hc).2
  refine ⟨?_, hl, ?_⟩
  · have h := listAll_eq (run init (cs.map Op.reg)).CmdList []
      (fun c hc => ⟨hname c hc, hhelp c hc⟩)
    simpa [cmdHelp.Exec, hlen] using h
  · intro c hc
    obtain ⟨n0, ns, hns⟩ := List.exists_cons_of_ne_nil (hname c hc)
    obtain ⟨h0, hs, hhs⟩ := List.exists_cons_of_ne_nil (hhelp c hc)
    simp [hns, hhs]

theorem cmdHelp_Exec_lists_all_witness :
    (∀ c ∈ (run init ([greet2, nameless, blank, greet].map Op.reg)).CmdList, c.Help ≠ []) ∧
      ["prog", "sub"].length ≤ 2 ∧
      abstractLines (run init ([greet2, nameless, blank, greet].map Op.reg)).CmdList =
        ["greet\tGreets again\n", "greet\tGreets you\n"] ∧
      (cmdHelp.Exec (run init ([greet2, nameless, blank, greet].map Op.reg)) ["prog", "sub"] =
          { out := abstractLines (run init ([greet2, nameless, blank, greet].map Op.reg)).CmdList
            outcome := .ret 0 none } ∧
        (run init ([greet2, nameless, blank, greet].map Op.reg)).CmdList =
          [greet2, nameless, blank, greet].filter (fun c => c.Name ≠ []) ∧
        ∀ c ∈ (run init ([greet2, nameless, blank, greet].map Op.reg)).CmdList,
          c.Name[0]? = some (c.Name.headD "") ∧ c.Help[0]? = some (c.Help.headD "")) :=
  ⟨by decide, by decide, by decide,
    cmdHelp_Exec_lists_all [greet2, nameless, blank, greet] ["prog", "sub"] (by decide)
      (by decide)⟩

/-- C18: on an argument vector of at least three elements whose element at
index 2 is not a help alias, `Exec` returns exit code 2 with the error
"Unsupported command or help target('<args[2]>'), type -h for help" when that
element is a key of the map, and this in every state that differs only in the
`Exec` of the registered commands, none of which is run; when it is not a key,
`Exec` ends in a fault. -/
theorem Exec_other_names (st : State) (args : List String) (n : String)
    (hlen : 3 ≤ args.length) (h2 : args[2]? = some n)
    (hn : n ≠ "help" ∧ n ≠ "-h" ∧ n ≠ "--help") :
    ((st.CmdsMap n).isSome = true →
        Exec st args =
            { out := []
              outcome :=
                .ret 2
                  (some ("Unsupported command or help target('" ++ n ++ "'), type -h for help")) } ∧
          ∀ st', st.sameButExec st' → Exec st' args = Exec st args) ∧
      (st.CmdsMap n = none → Exec st args = { out := [], outcome := .fault }) := by
  have hh := isHelp_eq_false hn
  refine ⟨fun hk => ⟨Exec_of_key st hlen h2 hh hk, ?_⟩, fun hk => Exec_of_not_key st hlen h2 hh hk⟩
  intro st' hst
  have hk' : (st'.CmdsMap n).isSome = true := by
    rw [← hst.1]
    exact hk
  rw [Exec_of_key st hlen h2 hh hk, Exec_of_key st' hlen h2 hh hk']

theorem Exec_other_names_witness :
    3 ≤ ["prog", "sub", "hi", "x"].length ∧ ["prog", "sub", "hi", "x"][2]? = some "hi" ∧
      ("hi" ≠ "help" ∧ "hi" ≠ "-h" ∧ "hi" ≠ "--help") ∧
      ((Reg init greet).CmdsMap "hi").isSome = true ∧
      ((((Reg init greet).CmdsMap "hi").isSome = true →
          Exec (Reg init greet) ["prog", "sub", "hi", "x"] =
              { out := []
                outcome :=
                  .ret 2
                    (some ("Unsupported command or help target('" ++ "hi" ++
                      "'), type -h for help")) } ∧
            ∀ st', (Reg init greet).sameButExec st' →
              Exec st' ["prog", "sub", "hi", "x"] =
                Exec (Reg init greet) ["prog", "sub", "hi", "x"]) ∧
        ((Reg init greet).CmdsMap "hi" = none →
          Exec (Reg init greet) ["prog", "sub", "hi", "x"] = { out := [], outcome := .fault })) :=
  ⟨by decide, rfl, by decide, by decide,
    Exec_other_names (Reg init greet) ["prog", "sub", "hi", "x"] "hi" (by decide) rfl
      (by decide)⟩

/-- C19: a call of the dispatcher `Exec`, and a call of `HelpCmd.Exec`, leaves
list and map as they were, whether it returns or faults, and this even when
the `Exec` of registered commands would change the registry, because none is
reached; its result is that of the state-free form. `UnspCmd.Exec` and
`MispCmd.Exec` are functions of the argument vector alone. -/
theorem Exec_reads_only (eff : Cmd → List String → List Op) (st : State)
    (args : List String) :
    (ExecS eff st args).1 = st ∧ (ExecS eff st args).2 = Exec st args ∧
      (cmdHelp.ExecS st args).1 = st ∧ (cmdHelp.ExecS st args).2 = cmdHelp.Exec st args ∧
      UnspCmd.Exec args = cmdUnsp.Exec args ∧ MispCmd.Exec args = cmdMisp.Exec args := by
  rw [ExecS_eq, cmdHelp_ExecS_eq]
  exact ⟨rfl, rfl, rfl, rfl, rfl, rfl⟩

end cmds
